import Mathlib

set_option maxRecDepth 10000

/-!
Verification of the expander materialization engine (src/src/lib.rs).

Bytes are modelled as `Nat` values below 256 collected in `List Nat`;
machine words are `Nat` reduced modulo `2 ^ 32` where the source relies on
wrap-around.  Strings stay `String` where the source manipulates `String`.
-/

namespace Expander

/-- UTF-8 encoding of a single code point, as `str::as_bytes` produces it. -/
def utf8Encode (c : Nat) : List Nat :=
  if c < 128 then [c]
  else if c < 2048 then [192 ||| (c >>> 6), 128 ||| (c &&& 63)]
  else if c < 65536 then
    [224 ||| (c >>> 12), 128 ||| ((c >>> 6) &&& 63), 128 ||| (c &&& 63)]
  else
    [240 ||| (c >>> 18), 128 ||| ((c >>> 12) &&& 63),
     128 ||| ((c >>> 6) &&& 63), 128 ||| (c &&& 63)]

/-- The byte sequence of a string (`String::as_bytes` / `String::into_bytes`). -/
def strBytes (s : String) : List Nat :=
  (s.data.map (fun c => utf8Encode c.toNat)).flatten

/-! ## Digest: BLAKE2s-256 (RFC 7693), the hash `expand_to_file` uses
(`blake2::Blake2s256::digest`).  Unkeyed, 32-byte output. -/

/-- 32-bit right rotation. -/
def rotr32 (x n : Nat) : Nat :=
  ((x >>> n) ||| (x <<< (32 - n))) % 4294967296

/-- BLAKE2s initialization vector. -/
def blakeIV : List Nat :=
  [0x6A09E667, 0xBB67AE85, 0x3C6EF372, 0xA54FF53A,
   0x510E527F, 0x9B05688C, 0x1F83D9AB, 0x5BE0CD19]

/-- The BLAKE2 message schedule permutations, one row per round. -/
def sigmaRounds : List (List Nat) :=
  [[0, 1, 2, 3, 4, 5, 6, 7, 8, 9, 10, 11, 12, 13, 14, 15],
   [14, 10, 4, 8, 9, 15, 13, 6, 1, 12, 0, 2, 11, 7, 5, 3],
   [11, 8, 12, 0, 5, 2, 15, 13, 10, 14, 3, 6, 7, 1, 9, 4],
   [7, 9, 3, 1, 13, 12, 11, 14, 2, 6, 5, 10, 4, 0, 15, 8],
   [9, 0, 5, 7, 2, 4, 10, 15, 14, 1, 11, 12, 6, 8, 3, 13],
   [2, 12, 6, 10, 0, 11, 8, 3, 4, 13, 7, 5, 15, 14, 1, 9],
   [12, 5, 1, 15, 14, 13, 4, 10, 0, 7, 6, 3, 9, 2, 8, 11],
   [13, 11, 7, 14, 12, 1, 3, 9, 5, 0, 15, 4, 8, 6, 2, 10],
   [6, 15, 14, 9, 11, 3, 0, 8, 12, 2, 13, 7, 1, 4, 10, 5],
   [10, 2, 8, 4, 7, 6, 1, 5, 15, 11, 9, 14, 3, 12, 13, 0]]

/-- The BLAKE2s G mixing function applied to the work vector `v` at
positions `a b c d` with message words `x y`. -/
def gMix (v : List Nat) (a b c d x y : Nat) : List Nat :=
  let va := (v.getD a 0 + v.getD b 0 + x) % 4294967296
  let vd := rotr32 ((v.getD d 0) ^^^ va) 16
  let vc := (v.getD c 0 + vd) % 4294967296
  let vb := rotr32 ((v.getD b 0) ^^^ vc) 12
  let va2 := (va + vb + y) % 4294967296
  let vd2 := rotr32 (vd ^^^ va2) 8
  let vc2 := (vc + vd2) % 4294967296
  let vb2 := rotr32 (vb ^^^ vc2) 7
  (((v.set a va2).set b vb2).set c vc2).set d vd2

/-- One BLAKE2s round over the work vector with schedule row `s`. -/
def blakeRound (m s : List Nat) (v : List Nat) : List Nat :=
  let mi := fun i => m.getD (s.getD i 0) 0
  let v := gMix v 0 4 8 12 (mi 0) (mi 1)
  let v := gMix v 1 5 9 13 (mi 2) (mi 3)
  let v := gMix v 2 6 10 14 (mi 4) (mi 5)
  let v := gMix v 3 7 11 15 (mi 6) (mi 7)
  let v := gMix v 0 5 10 15 (mi 8) (mi 9)
  let v := gMix v 1 6 11 12 (mi 10) (mi 11)
  let v := gMix v 2 7 8 13 (mi 12) (mi 13)
  gMix v 3 4 9 14 (mi 14) (mi 15)

/-- Little-endian 32-bit words of one (zero-padded) 64-byte block. -/
def wordsOf (block : List Nat) : List Nat :=
  (List.range 16).map (fun i =>
    block.getD (4 * i) 0 + 256 * block.getD (4 * i + 1) 0 +
    65536 * block.getD (4 * i + 2) 0 + 16777216 * block.getD (4 * i + 3) 0)

/-- BLAKE2s compression function: state `h`, message words `m`, byte
counter `t`, final-block flag. -/
def blakeCompress (h m : List Nat) (t : Nat) (last : Bool) : List Nat :=
  let v := h ++ blakeIV
  let v := v.set 12 ((v.getD 12 0) ^^^ (t % 4294967296))
  let v := v.set 13 ((v.getD 13 0) ^^^ (t / 4294967296 % 4294967296))
  let v := if last then v.set 14 ((v.getD 14 0) ^^^ 0xFFFFFFFF) else v
  let v := sigmaRounds.foldl (fun w s => blakeRound m s w) v
  (List.range 8).map (fun i => (h.getD i 0) ^^^ (v.getD i 0) ^^^ (v.getD (i + 8) 0))

/-- Process the message block by block; `t` counts bytes already consumed.
The fuel argument is only a structural bound on the number of blocks: each
recursive step strictly shortens `msg` by 64 bytes, so any fuel of at least
`msg.length` steps reaches the final block. -/
def blakeLoop : Nat → List Nat → List Nat → Nat → List Nat
  | 0, h, msg, t => blakeCompress h (wordsOf msg) (t + msg.length) true
  | fuel + 1, h, msg, t =>
    if msg.length ≤ 64 then
      blakeCompress h (wordsOf msg) (t + msg.length) true
    else
      blakeLoop fuel (blakeCompress h (wordsOf (msg.take 64)) (t + 64) false)
        (msg.drop 64) (t + 64)

/-- BLAKE2s-256 of a byte sequence: the digest `expand_to_file` computes
over the formatted bytes.  Returns the 32 digest bytes. -/
def blake2s256 (msg : List Nat) : List Nat :=
  let h0 := blakeIV.set 0 ((blakeIV.getD 0 0) ^^^ 0x01010020)
  let h := blakeLoop (msg.length + 1) h0 msg 0
  (h.map (fun w => [w % 256, w / 256 % 256, w / 65536 % 256, w / 16777216 % 256])).flatten

/-! ## Naming -/

/-- The lookup table `TABLE: &[u8] = b"0123456789abcdef"` of `make_suffix`. -/
def hexTable : List Char :=
  "0123456789abcdef".data

/-- `make_suffix`: take the leading 6 bytes of the digest and render each as
two lowercase hex characters, exactly as the source's loop does
(`TABLE[(byte >> 4) & 0x0F]` then `TABLE[(byte >> 0) & 0x0F]`). -/
def make_suffix (digest : List Nat) : String :=
  String.mk ((digest.take 6).map (fun byte =>
    [hexTable.getD ((byte >>> 4) &&& 15) '0', hexTable.getD ((byte >>> 0) &&& 15) '0'])).flatten

/-- Modelled from the spec's words for comparison with `make_suffix`:
"take a fixed-size leading slice of the digest … and render as lowercase
hex" — the ordinary lowercase hex rendering of a byte list, high nibble
first. -/
def specHexRender (bytes : List Nat) : String :=
  String.mk (bytes.map (fun b =>
    [hexTable.getD (b / 16) '0', hexTable.getD (b % 16) '0'])).flatten

/-- The destination path `expand_to_file` derives:
`dest.display() + "-" + shortened_hex + ".rs"` where the digest is taken
over the formatted bytes. -/
def destPath (dest : String) (bytes : List Nat) : String :=
  dest ++ "-" ++ make_suffix (blake2s256 bytes) ++ ".rs"

/-! ## Configuration (the `Expander` builder struct and its setters) -/

/-- Rust edition to format for (`enum Edition`). -/
inductive Edition
  | unspecified
  | e2015
  | e2018
  | e2021
deriving DecidableEq, Repr

/-- `Display for Edition`. -/
def Edition.str : Edition → String
  | .e2015 => "2015"
  | .e2018 => "2018"
  | .e2021 => "2021"
  | .unspecified => ""

/-- The channel to use for formatting (`enum Channel`). -/
inductive Channel
  | dflt
  | stable
  | beta
  | nightly
deriving DecidableEq, Repr

/-- `Display for Channel`. -/
def Channel.str : Channel → String
  | .stable => "+stable"
  | .beta => "+beta"
  | .nightly => "+nightly"
  | .dflt => ""

/-- `enum RustFmt`. -/
inductive RustFmt
  | yes (edition : Edition) (channel : Channel) (allow_failure : Bool)
  | no
deriving DecidableEq, Repr

/-- The builder struct (`struct Expander` in the source; renamed here because
the file itself lives in namespace `Expander`). -/
structure Config where
  dry : Bool
  verbose : Bool
  filename_base : String
  comment : Option String
  rustfmt : RustFmt
deriving DecidableEq, Repr

/-- `Expander::new`. -/
def Config.new (filename_base : String) : Config :=
  { dry := false, verbose := false, filename_base := filename_base,
    comment := none, rustfmt := .no }

/-- `Expander::add_comment`: stores the caller's comment wrapped as a block
comment with a trailing newline (`format!("/* {} */\n", comment)`). -/
def Config.add_comment (cfg : Config) (comment : Option String) : Config :=
  { cfg with comment := comment.map (fun c => "/* " ++ c ++ " */\n") }

/-- `Expander::fmt`. -/
def Config.fmt (cfg : Config) (edition : Edition) : Config :=
  { cfg with rustfmt := .yes edition .dflt false }

/-- `Expander::fmt_full`. -/
def Config.fmt_full (cfg : Config) (channel : Channel) (edition : Edition)
    (allow_failure : Bool) : Config :=
  { cfg with rustfmt := .yes edition channel allow_failure }

/-- `Expander::dry`. -/
def Config.set_dry (cfg : Config) (dry : Bool) : Config :=
  { cfg with dry := dry }

/-- `Expander::verbose`. -/
def Config.set_verbose (cfg : Config) (verbose : Bool) : Config :=
  { cfg with verbose := verbose }

/-! ## Formatting pipeline (`run_rustfmt_on_content`,
`maybe_run_rustfmt_on_content`).  The external `rustfmt` process is a black
box; its observable behaviour on one invocation is a `FmtOutcome`. -/

/-- A single I/O error as surfaced to the caller (`std::io::Error`),
identified by its message. -/
inductive IoErr
  | err (msg : String)
deriving DecidableEq, Repr

/-- Observable behaviour of the attempt to run the external `rustfmt`
process: `spawnError` is `Command::spawn` failing (formatter unavailable),
`stdinError` is the write to the child stdin failing, `exited` carries the
exit status (`success`, `code`), captured stdout bytes and stderr text. -/
inductive FmtOutcome
  | spawnError (msg : String)
  | stdinError (msg : String)
  | exited (success : Bool) (code : Option Int) (stdout_bytes : List Nat)
      (stderr_text : String)
deriving DecidableEq, Repr

/-- The command-line arguments built for the `rustfmt` invocation: the
optional channel argument, then `--edition=..`, `--emit=stdout`, `--`. -/
def rustfmtArgs (channel : Channel) (edition : Edition) : List String :=
  (if channel ≠ Channel.dflt then [channel.str] else []) ++
  ["--edition=" ++ edition.str, "--emit=stdout", "--"]

/-- `run_rustfmt_on_content`, as a function of the process outcome.  Returns
the result together with the diagnostic lines printed to stderr
(`eprintln!`).  `spawn()?` and the stdin `write_all(..)?` propagate their
errors unconditionally; only a non-zero exit status consults
`allow_failure`. -/
def run_rustfmt_on_content (content : List Nat) (channel : Channel)
    (edition : Edition) (allow_failure : Bool) (outcome : FmtOutcome) :
    Except IoErr (List Nat) × List String :=
  match outcome with
  | .spawnError m => (.error (.err m), [])
  | .stdinError m => (.error (.err m), [])
  | .exited success code stdout_bytes stderr_text =>
    if success then (.ok stdout_bytes, [])
    else
      let error := "rustfmt failed with exit code " ++ toString (code.getD (-1)) ++
        "\nstderr: " ++ stderr_text
      if allow_failure then (.ok content, ["expander: " ++ error])
      else (.error (.err error), [])

/-- `maybe_run_rustfmt_on_content`: run the formatter when `RustFmt::Yes`,
otherwise pass the raw token string through as bytes. -/
def maybe_run_rustfmt_on_content (rustfmt : RustFmt) (verbose : Bool)
    (message : String) (token_str : String) (outcome : FmtOutcome) :
    Except IoErr (List Nat) × List String :=
  match rustfmt with
  | .yes edition channel allow_failure =>
    let pre := if verbose then [message] else []
    let r := run_rustfmt_on_content (strBytes token_str) channel edition
      allow_failure outcome
    (r.1, pre ++ r.2)
  | .no => (.ok (strBytes token_str), [])

/-! ## Concurrency-safe writer, sequential view (`expand_to_file`)

A single call is modelled as a state transformer over a filesystem of
`path ↦ byte content` bindings plus the set of paths whose file lock is
currently held by some other process.  Every filesystem operation the call
performs is also recorded in an operation log, in order. -/

/-- One observable filesystem operation of a call. -/
inductive FsOp
  | openTruncate (path : String)
  | tryLockOp (path : String) (acquired : Bool)
  | blockLockOp (path : String)
  | writeOp (path : String) (bytes : List Nat)
  | unlockOp (path : String)
deriving DecidableEq, Repr

/-- Filesystem state: file contents, and paths whose advisory lock some
concurrent process currently holds. -/
structure FsState where
  files : List (String × List Nat)
  lockedPaths : List String
deriving DecidableEq, Repr

/-- Update (or create) the binding of `p` in an association list. -/
def updateFile (files : List (String × List Nat)) (p : String)
    (c : List Nat) : List (String × List Nat) :=
  match files with
  | [] => [(p, c)]
  | (q, d) :: rest =>
    if q = p then (p, c) :: rest else (q, d) :: updateFile rest p c

/-- Look up the content of `p`. -/
def lookupFile (fs : FsState) (p : String) : Option (List Nat) :=
  fs.files.lookup p

/-- The reference token stream `quote! { include!( #dest ); }` rendered as
its token string. -/
def includeRef (dest : String) : String :=
  "include ! (\"" ++ dest ++ "\") ;"

/-- `expand_to_file` (the `pretty` feature disabled, so the content is
produced by `maybe_run_rustfmt_on_content`).  Returns the call result, the
filesystem after the call, the ordered log of filesystem operations, and
the diagnostic lines.  The open uses
`OpenOptions::new().write(true).create(true).truncate(true)`, so the file
is created if absent and truncated at open time; the non-blocking exclusive
lock is only attempted afterwards.  A failed probe takes the loser branch:
block on the lock, then return the reference without writing. -/
def expand_to_file (token_str : String) (dest : String) (rustfmt : RustFmt)
    (comment : Option String) (verbose : Bool) (outcome : FmtOutcome)
    (fs : FsState) :
    Except IoErr String × FsState × List FsOp × List String :=
  match maybe_run_rustfmt_on_content rustfmt verbose
    "expander: formatting with rustfmt" token_str outcome with
  | (.error e, log) => (.error e, fs, [], log)
  | (.ok bytes, log) =>
    let dest2 := destPath dest bytes
    let fs1 : FsState := { fs with files := updateFile fs.files dest2 [] }
    if dest2 ∈ fs.lockedPaths then
      (.ok (includeRef dest2), fs1,
       [.openTruncate dest2, .tryLockOp dest2 false, .blockLockOp dest2],
       log)
    else
      let header := match comment with | some c => strBytes c | none => []
      let fs2 : FsState := { fs1 with files := updateFile fs1.files dest2 (header ++ bytes) }
      (.ok (includeRef dest2), fs2,
       [.openTruncate dest2, .tryLockOp dest2 true] ++
         (match comment with | some c => [FsOp.writeOp dest2 (strBytes c)] | none => []) ++
         [.writeOp dest2 bytes, .unlockOp dest2],
       log)

/-- `Expander::write_to`: the dry run returns the input token stream with no
filesystem interaction; otherwise `expand_to_file` runs on
`dest_dir.join(filename_base)`. -/
def write_to (cfg : Config) (token_str : String) (dest_dir : String)
    (outcome : FmtOutcome) (fs : FsState) :
    Except IoErr String × FsState × List FsOp × List String :=
  if cfg.dry then (.ok token_str, fs, [], [])
  else
    expand_to_file token_str (dest_dir ++ "/" ++ cfg.filename_base)
      cfg.rustfmt cfg.comment cfg.verbose outcome fs

/-! ## Concurrency-safe writer, interleaved view

Two concurrent invocations of `expand_to_file` targeting the same
destination path are modelled as a small-step machine.  Each process runs
the statement sequence of the source, one observable filesystem action per
step:

* `start → opened`: the `OpenOptions` open with `write(true)`,
  `create(true)`, `truncate(true)` — creates the file if absent and
  truncates it to empty; no lock is involved;
* `opened → winnerHasLock | loserWaiting`: the non-blocking
  `file_guard::try_lock` probe;
* `winnerHasLock → wrote`: the winner's `write_all` calls (header followed
  by bytes, under the lock);
* `wrote → done`: the winner returns the include reference; the lock guard
  is dropped at function exit;
* `loserWaiting → done`: the blocking `file_guard::lock`, enabled only when
  no process holds the lock; the loser then returns the include reference
  without having written.

`writeData i` is the content (header plus formatted bytes) process `i`
writes; the file path is fixed, both processes having derived the same
content-addressed destination. -/

/-- Program counter of one in-flight `expand_to_file` call. -/
inductive PC
  | start
  | opened
  | winnerHasLock
  | wrote
  | loserWaiting
  | done
deriving DecidableEq, Repr

/-- Local state of one process: where it is, and the token stream it has
returned (the include reference), if any. -/
structure ProcState where
  pc : PC
  result : Option String
deriving DecidableEq, Repr

/-- Global state of the two-process machine: whether the destination file
exists, its current content, the holder of the exclusive lock, and the two
process states (`false` and `true` name the processes). -/
structure MState where
  fileExists : Bool
  content : List Nat
  lockHolder : Option Bool
  p0 : ProcState
  p1 : ProcState
deriving DecidableEq, Repr

/-- The process `i`'s local state. -/
def getProc (s : MState) (i : Bool) : ProcState :=
  if i then s.p1 else s.p0

/-- Replace the process `i`'s local state. -/
def setProc (s : MState) (i : Bool) (p : ProcState) : MState :=
  if i then { s with p1 := p } else { s with p0 := p }

/-- One step of process `i`: `none` when the process is finished or blocked
on the lock. -/
def mstep (writeData : Bool → List Nat) (dest : String) (s : MState)
    (i : Bool) : Option MState :=
  let p := getProc s i
  match p.pc with
  | .start =>
    some (setProc { s with fileExists := true, content := [] } i
      { p with pc := .opened })
  | .opened =>
    match s.lockHolder with
    | none => some (setProc { s with lockHolder := some i } i
        { p with pc := .winnerHasLock })
    | some _ => some (setProc s i { p with pc := .loserWaiting })
  | .winnerHasLock =>
    some (setProc { s with content := writeData i } i { p with pc := .wrote })
  | .wrote =>
    some (setProc { s with lockHolder := none } i
      { p with pc := .done, result := some (includeRef dest) })
  | .loserWaiting =>
    match s.lockHolder with
    | none => some (setProc s i
        { p with pc := .done, result := some (includeRef dest) })
    | some _ => none
  | .done => none

/-- Run a schedule: at each entry the named process takes its next enabled
step (a blocked or finished process leaves the state unchanged). -/
def runSched (writeData : Bool → List Nat) (dest : String) (s : MState) :
    List Bool → MState
  | [] => s
  | i :: rest =>
    runSched writeData dest
      (match mstep writeData dest s i with | some t => t | none => s) rest

/-- Both processes about to call `expand_to_file`; the file does not exist
yet. -/
def initMState : MState :=
  { fileExists := false, content := [], lockHolder := none,
    p0 := { pc := .start, result := none },
    p1 := { pc := .start, result := none } }

/-- The `OpenOptions` flags `expand_to_file` opens the destination with
(source lines 283–287): `write(true).create(true).truncate(true)`. -/
structure OpenOpts where
  write : Bool
  create : Bool
  truncate : Bool
deriving DecidableEq, Repr

/-- The open options used by `expand_to_file`. -/
def expandOpenOptions : OpenOpts :=
  { write := true, create := true, truncate := true }

/-! ## Helper lemmas -/

/-- `setProc` never touches the shared file content. -/
theorem setProc_content (s : MState) (i : Bool) (p : ProcState) :
    (setProc s i p).content = s.content := by
  cases i <;> simp [setProc]

/-- `setProc` never touches the lock holder. -/
theorem setProc_lockHolder (s : MState) (i : Bool) (p : ProcState) :
    (setProc s i p).lockHolder = s.lockHolder := by
  cases i <;> simp [setProc]

/-- `setProc` stores the given local state at `i`. -/
theorem getProc_setProc (s : MState) (i : Bool) (p : ProcState) :
    getProc (setProc s i p) i = p := by
  cases i <;> simp [getProc, setProc]

/-- The compression function always yields the 8 state words. -/
theorem blakeCompress_length (h m : List Nat) (t : Nat) (l : Bool) :
    (blakeCompress h m t l).length = 8 := by
  simp [blakeCompress]

/-- The block loop always yields the 8 state words. -/
theorem blakeLoop_length (fuel : Nat) :
    ∀ (h msg : List Nat) (t : Nat), (blakeLoop fuel h msg t).length = 8 := by
  induction fuel with
  | zero => intro h msg t; exact blakeCompress_length ..
  | succ n ih =>
    intro h msg t
    rw [blakeLoop]
    split
    · exact blakeCompress_length ..
    · exact ih ..

/-- Summing a constant over a list. -/
theorem sum_map_const {α : Type} (l : List α) (c : Nat) :
    (l.map (fun _ => c)).sum = c * l.length := by
  induction l with
  | nil => simp
  | cons a l ih => simp [ih, Nat.mul_succ]; ring

/-- The digest has exactly 32 bytes. -/
theorem blake2s256_length (msg : List Nat) : (blake2s256 msg).length = 32 := by
  rw [blake2s256, List.length_flatten, List.map_map]
  have hc : (List.length ∘ fun w : Nat =>
      [w % 256, w / 256 % 256, w / 65536 % 256, w / 16777216 % 256]) =
      fun _ : Nat => 4 := by
    funext w; rfl
  rw [hc, sum_map_const, blakeLoop_length]

/-- Every digest byte is below 256. -/
theorem blake2s256_lt (msg : List Nat) : ∀ b ∈ blake2s256 msg, b < 256 := by
  intro b hb
  rw [blake2s256, List.mem_flatten] at hb
  obtain ⟨l, hl, hbl⟩ := hb
  rw [List.mem_map] at hl
  obtain ⟨w, _, rfl⟩ := hl
  simp only [List.mem_cons, List.not_mem_nil, or_false] at hbl
  rcases hbl with h | h | h | h <;> subst h <;> omega

/-- The characters of `make_suffix` as a list. -/
theorem make_suffix_data (d : List Nat) :
    (make_suffix d).data = ((d.take 6).map (fun byte =>
      [hexTable.getD ((byte >>> 4) &&& 15) '0',
       hexTable.getD ((byte >>> 0) &&& 15) '0'])).flatten := rfl

/-- Any masked nibble is a valid index into the 16-entry hex table. -/
theorem and_fifteen_lt (x : Nat) : x &&& 15 < 16 :=
  lt_of_le_of_lt Nat.and_le_right (by omega)

/-- `make_suffix` yields 12 characters whenever the digest has at least 6
bytes. -/
theorem make_suffix_length (d : List Nat) (h6 : 6 ≤ d.length) :
    (make_suffix d).length = 12 := by
  show (make_suffix d).data.length = 12
  rw [make_suffix_data, List.length_flatten, List.map_map]
  have hc : (List.length ∘ fun byte : Nat =>
      [hexTable.getD ((byte >>> 4) &&& 15) '0',
       hexTable.getD ((byte >>> 0) &&& 15) '0']) = fun _ : Nat => 2 := by
    funext w; rfl
  rw [hc, sum_map_const, List.length_take]
  omega

/-- Every character `make_suffix` emits comes from the hex table. -/
theorem make_suffix_chars (d : List Nat) :
    ∀ c ∈ (make_suffix d).data, c ∈ hexTable := by
  intro c hc
  rw [make_suffix_data, List.mem_flatten] at hc
  obtain ⟨l, hl, hcl⟩ := hc
  rw [List.mem_map] at hl
  obtain ⟨byte, _, rfl⟩ := hl
  have hmem : ∀ x : Nat, hexTable.getD (x &&& 15) '0' ∈ hexTable := by
    intro x
    rw [List.getD_eq_getElem hexTable '0'
      (show x &&& 15 < hexTable.length from and_fifteen_lt x)]
    exact List.getElem_mem _
  simp only [List.mem_cons, List.not_mem_nil, or_false] at hcl
  rcases hcl with h | h <;> subst h <;> exact hmem _

/-! ## Claims -/

/-- C7.  With `dry = true`, `write_to` returns the input token stream
unchanged, leaves the filesystem untouched, performs no filesystem
operation and emits no diagnostic. -/
theorem dry_run_purity (cfg : Config) (token_str dest_dir : String)
    (outcome : FmtOutcome) (fs : FsState) (hdry : cfg.dry = true) :
    write_to cfg token_str dest_dir outcome fs = (.ok token_str, fs, [], []) := by
  simp [write_to, hdry]

/-- Witness for C7 at a concrete configuration and token stream. -/
theorem dry_run_purity_witness :
    ((Config.new "foo").set_dry true).dry = true ∧
    write_to ((Config.new "foo").set_dry true) "T" "dir"
        (.exited true none [] "") ⟨[], []⟩ =
      (.ok "T", ⟨[], []⟩, [], []) :=
  ⟨by decide, dry_run_purity _ _ _ _ _ (by decide)⟩

/-- C3, counterexample.  When the formatter is unavailable (spawn fails),
`run_rustfmt_on_content` surfaces the error even with
`allow_failure = true`: it does not return the raw text verbatim. -/
theorem rustfmt_unavailable_fatal_counterexample :
    (run_rustfmt_on_content [66] Channel.dflt Edition.e2021 true
        (.spawnError "rustfmt: program not found")).1 =
      .error (.err "rustfmt: program not found") ∧
    (run_rustfmt_on_content [66] Channel.dflt Edition.e2021 true
        (.spawnError "rustfmt: program not found")).1 ≠ .ok [66] := by
  exact ⟨rfl, by simp [run_rustfmt_on_content]⟩

/-- C3, amended.  A non-zero formatter exit status is handled per
`allow_failure`: with `allow_failure = true` the raw content comes back
verbatim and a diagnostic is logged, with `allow_failure = false` an error
surfaces; but a spawn failure (formatter unavailable) or a failure writing
the child's stdin propagates as a hard error regardless of
`allow_failure`. -/
theorem rustfmt_failure_policy (content : List Nat) (ch : Channel)
    (ed : Edition) (code : Option Int) (out : List Nat) (errtext m : String) :
    (run_rustfmt_on_content content ch ed true
        (.exited false code out errtext)).1 = .ok content ∧
    (run_rustfmt_on_content content ch ed true
        (.exited false code out errtext)).2 ≠ [] ∧
    (∃ e, (run_rustfmt_on_content content ch ed false
        (.exited false code out errtext)).1 = .error e) ∧
    (∀ af : Bool,
      (run_rustfmt_on_content content ch ed af (.spawnError m)).1 =
        .error (.err m)) ∧
    (∀ af : Bool,
      (run_rustfmt_on_content content ch ed af (.stdinError m)).1 =
        .error (.err m)) := by
  refine ⟨rfl, ?_, ⟨_, rfl⟩, fun af => rfl, fun af => rfl⟩
  simp [run_rustfmt_on_content]

/-- C1.  The destination is opened with
`write(true).create(true).truncate(true)`: the file is truncated by the
open itself, before any lock is taken.  Concretely, from a state where the
destination already holds the winner's bytes `[67]` and nobody holds the
lock, the open step of a fresh call empties the file while the caller still
holds no lock (its program counter has only reached the `try_lock`
probe). -/
theorem open_truncates_before_lock :
    expandOpenOptions.truncate = true ∧
    expandOpenOptions.create = true ∧
    mstep (fun _ => [67]) "d"
        { fileExists := true, content := [67], lockHolder := none,
          p0 := { pc := .start, result := none },
          p1 := { pc := .start, result := none } } false =
      some { fileExists := true, content := [], lockHolder := none,
             p0 := { pc := .opened, result := none },
             p1 := { pc := .start, result := none } } := by
  decide

/-- C2.  Interleaving that violates the barrier: both calls write the
identical content `[67]`; process `false` opens, wins the probe and writes;
process `true` then opens — truncating the file — and loses the probe;
after the winner returns and releases the lock, the loser's blocking
acquisition succeeds and it returns the reference.  Both calls have
returned the include reference, yet the destination file is empty, not
`[67]`. -/
theorem concurrent_identical_writes_lose_content :
    runSched (fun _ => [67]) "d" initMState
        [false, false, false, true, true, false, true] =
      { fileExists := true, content := [], lockHolder := none,
        p0 := { pc := .done, result := some (includeRef "d") },
        p1 := { pc := .done, result := some (includeRef "d") } } ∧
    ([] : List Nat) ≠ [67] := by
  decide

/-- C4.  When the non-blocking probe finds the lock held, the call moves to
the loser branch without touching the file; from there its only step is the
blocking acquisition — disabled while anybody holds the lock — after which
it immediately returns the include reference, never writing any bytes. -/
theorem try_lock_contention_waits_then_references (wd : Bool → List Nat)
    (dest : String) (s : MState) (i : Bool)
    (hpc : (getProc s i).pc = PC.opened) (hheld : s.lockHolder ≠ none) :
    mstep wd dest s i =
      some (setProc s i { pc := .loserWaiting, result := (getProc s i).result }) ∧
    (setProc s i { pc := PC.loserWaiting, result := (getProc s i).result }).content
      = s.content ∧
    (∀ t : MState, (getProc t i).pc = PC.loserWaiting →
      (t.lockHolder ≠ none → mstep wd dest t i = none) ∧
      (t.lockHolder = none →
        mstep wd dest t i =
          some (setProc t i { pc := .done, result := some (includeRef dest) }) ∧
        (setProc t i { pc := PC.done, result := some (includeRef dest) }).content
          = t.content)) := by
  refine ⟨?_, setProc_content _ _ _, fun t hpt => ⟨?_, ?_⟩⟩
  · cases hl : s.lockHolder with
    | none => exact absurd hl hheld
    | some j => simp [mstep, hpc, hl]
  · intro hheldt
    cases hl : t.lockHolder with
    | none => exact absurd hl hheldt
    | some j => simp [mstep, hpt, hl]
  · intro hfree
    exact ⟨by simp [mstep, hpt, hfree], setProc_content _ _ _⟩

/-- Witness for C4: a concrete state in which process `false` has opened
the file and process `true` holds the lock. -/
theorem try_lock_contention_witness :
    (getProc { fileExists := true, content := [67], lockHolder := some true,
               p0 := { pc := .opened, result := none },
               p1 := { pc := .winnerHasLock, result := none } } false).pc
        = PC.opened ∧
    ({ fileExists := true, content := [67], lockHolder := some true,
       p0 := { pc := .opened, result := none },
       p1 := { pc := .winnerHasLock, result := none } } : MState).lockHolder
        ≠ none ∧
    (mstep (fun _ => [67]) "d"
        { fileExists := true, content := [67], lockHolder := some true,
          p0 := { pc := .opened, result := none },
          p1 := { pc := .winnerHasLock, result := none } } false =
      some (setProc
        { fileExists := true, content := [67], lockHolder := some true,
          p0 := { pc := .opened, result := none },
          p1 := { pc := .winnerHasLock, result := none } } false
        { pc := .loserWaiting,
          result := (getProc
            { fileExists := true, content := [67], lockHolder := some true,
              p0 := { pc := .opened, result := none },
              p1 := { pc := .winnerHasLock, result := none } } false).result })) :=
  ⟨by decide, by decide,
    (try_lock_contention_waits_then_references (fun _ => [67]) "d"
      { fileExists := true, content := [67], lockHolder := some true,
        p0 := { pc := .opened, result := none },
        p1 := { pc := .winnerHasLock, result := none } } false
      (by decide) (by decide)).1⟩

/-- When the formatting pipeline yields `bytes`, `expand_to_file` returns
the include reference to the content-addressed destination path — in both
the winner and the loser branch. -/
theorem expand_to_file_result (ts dest : String) (rf : RustFmt)
    (cm : Option String) (vb : Bool) (oc : FmtOutcome) (fs : FsState)
    (b : List Nat)
    (h : (maybe_run_rustfmt_on_content rf vb
      "expander: formatting with rustfmt" ts oc).1 = .ok b) :
    (expand_to_file ts dest rf cm vb oc fs).1 =
      .ok (includeRef (destPath dest b)) := by
  cases hm : maybe_run_rustfmt_on_content rf vb
      "expander: formatting with rustfmt" ts oc with
  | mk r l =>
    rw [hm] at h
    simp only at h
    subst h
    simp only [expand_to_file, hm]
    split <;> rfl

/-- C8.  Applied to a 32-byte digest, `make_suffix` yields exactly 12
characters, all drawn from the lowercase hex table, and the string is
precisely the lowercase hex rendering of the leading 6 digest bytes. -/
theorem make_suffix_renders_lead_bytes (d : List Nat) (hd : d.length = 32)
    (hbytes : ∀ b ∈ d, b < 256) :
    (make_suffix d).length = 12 ∧
    (∀ c ∈ (make_suffix d).data, c ∈ hexTable) ∧
    make_suffix d = specHexRender (d.take 6) := by
  refine ⟨make_suffix_length d (by omega), make_suffix_chars d, ?_⟩
  unfold make_suffix specHexRender
  congr 2
  apply List.map_congr_left
  intro b hbmem
  have hb256 : b < 256 := hbytes b (List.take_subset 6 d hbmem)
  have h4 : b >>> 4 = b / 16 := by
    rw [Nat.shiftRight_eq_div_pow]
  have h15 : ∀ x : Nat, x &&& 15 = x % 16 := by
    intro x
    have := Nat.and_pow_two_sub_one_eq_mod x 4
    norm_num at this
    exact this
  rw [Nat.shiftRight_zero, h4, h15, h15, Nat.mod_eq_of_lt (show b / 16 < 16 by omega)]

/-- Witness for C8 at the concrete digest of the empty message. -/
theorem make_suffix_renders_lead_bytes_witness :
    (blake2s256 []).length = 32 ∧
    (∀ b ∈ blake2s256 [], b < 256) ∧
    ((make_suffix (blake2s256 [])).length = 12 ∧
     (∀ c ∈ (make_suffix (blake2s256 [])).data, c ∈ hexTable) ∧
     make_suffix (blake2s256 []) = specHexRender ((blake2s256 []).take 6)) :=
  ⟨by decide, by decide,
    make_suffix_renders_lead_bytes (blake2s256 []) (by decide) (by decide)⟩

/-- C5.  Two (non-dry) calls with the same base name whose post-formatting
byte output is the identical `b` both return the include reference to the
same destination path; that path is the deterministic value
`{dest_dir}/{base}-{hex}.rs` where `hex` is the 12-character digest-derived
suffix of `b` alone. -/
theorem same_content_same_path
    (cfg1 cfg2 : Config) (ts1 ts2 dir : String) (oc1 oc2 : FmtOutcome)
    (fs1 fs2 : FsState) (b : List Nat)
    (hbase : cfg1.filename_base = cfg2.filename_base)
    (hdry1 : cfg1.dry = false) (hdry2 : cfg2.dry = false)
    (h1 : (maybe_run_rustfmt_on_content cfg1.rustfmt cfg1.verbose
      "expander: formatting with rustfmt" ts1 oc1).1 = .ok b)
    (h2 : (maybe_run_rustfmt_on_content cfg2.rustfmt cfg2.verbose
      "expander: formatting with rustfmt" ts2 oc2).1 = .ok b) :
    (write_to cfg1 ts1 dir oc1 fs1).1 = (write_to cfg2 ts2 dir oc2 fs2).1 ∧
    (write_to cfg1 ts1 dir oc1 fs1).1 =
      .ok (includeRef (destPath (dir ++ "/" ++ cfg1.filename_base) b)) ∧
    destPath (dir ++ "/" ++ cfg1.filename_base) b =
      (dir ++ "/" ++ cfg1.filename_base) ++ "-" ++
        make_suffix (blake2s256 b) ++ ".rs" ∧
    (make_suffix (blake2s256 b)).length = 12 := by
  have e1 : (write_to cfg1 ts1 dir oc1 fs1).1 =
      .ok (includeRef (destPath (dir ++ "/" ++ cfg1.filename_base) b)) := by
    simp only [write_to, hdry1, Bool.false_eq_true, if_false]
    exact expand_to_file_result _ _ _ _ _ _ _ _ h1
  have e2 : (write_to cfg2 ts2 dir oc2 fs2).1 =
      .ok (includeRef (destPath (dir ++ "/" ++ cfg2.filename_base) b)) := by
    simp only [write_to, hdry2, Bool.false_eq_true, if_false]
    exact expand_to_file_result _ _ _ _ _ _ _ _ h2
  refine ⟨?_, e1, rfl, make_suffix_length _ (by rw [blake2s256_length]; omega)⟩
  rw [e1, e2, hbase]

/-- Witness for C5: a bare call and a differently configured call (header
comment added, formatter enabled) whose formatter output is byte-identical
resolve to the same reference. -/
theorem same_content_same_path_witness :
    ((Config.new "foo").filename_base =
      (((Config.new "foo").add_comment (some "x")).fmt_full
        Channel.nightly Edition.e2021 true).filename_base) ∧
    ((Config.new "foo").dry = false) ∧
    ((((Config.new "foo").add_comment (some "x")).fmt_full
        Channel.nightly Edition.e2021 true).dry = false) ∧
    ((maybe_run_rustfmt_on_content (Config.new "foo").rustfmt
        (Config.new "foo").verbose "expander: formatting with rustfmt" "B"
        (.exited true none [] "")).1 = .ok (strBytes "B")) ∧
    ((maybe_run_rustfmt_on_content
        ((((Config.new "foo").add_comment (some "x")).fmt_full
          Channel.nightly Edition.e2021 true)).rustfmt
        ((((Config.new "foo").add_comment (some "x")).fmt_full
          Channel.nightly Edition.e2021 true)).verbose
        "expander: formatting with rustfmt" "ignored"
        (.exited true none (strBytes "B") "")).1 = .ok (strBytes "B")) ∧
    ((write_to (Config.new "foo") "B" "dir" (.exited true none [] "")
        ⟨[], []⟩).1 =
      (write_to (((Config.new "foo").add_comment (some "x")).fmt_full
          Channel.nightly Edition.e2021 true) "ignored" "dir"
        (.exited true none (strBytes "B") "") ⟨[("other", [1])], []⟩).1) :=
  ⟨rfl, rfl, rfl, rfl, rfl,
    (same_content_same_path (Config.new "foo")
      (((Config.new "foo").add_comment (some "x")).fmt_full
        Channel.nightly Edition.e2021 true)
      "B" "ignored" "dir" (.exited true none [] "")
      (.exited true none (strBytes "B") "")
      ⟨[], []⟩ ⟨[("other", [1])], []⟩ (strBytes "B")
      rfl rfl rfl rfl rfl).1⟩

/-- The first six elements of a list of length at least 6, elementwise. -/
theorem take_six (l : List Nat) (h : 6 ≤ l.length) :
    l.take 6 = [l.getD 0 0, l.getD 1 0, l.getD 2 0,
                l.getD 3 0, l.getD 4 0, l.getD 5 0] := by
  rcases l with _ | ⟨a, _ | ⟨b, _ | ⟨c, _ | ⟨d, _ | ⟨e, _ | ⟨f, rest⟩⟩⟩⟩⟩⟩ <;>
    simp_all [List.getD]

/-- `make_suffix` only looks at the two hex nibbles of each of the first
six digest bytes. -/
theorem make_suffix_congr (d1 d2 : List Nat) (h1 : 6 ≤ d1.length)
    (h2 : 6 ≤ d2.length)
    (h : ∀ i, i < 6 →
      (d1.getD i 0 >>> 4) &&& 15 = (d2.getD i 0 >>> 4) &&& 15 ∧
      d1.getD i 0 &&& 15 = d2.getD i 0 &&& 15) :
    make_suffix d1 = make_suffix d2 := by
  unfold make_suffix
  rw [take_six d1 h1, take_six d2 h2]
  simp only [List.map, List.flatten, List.cons_append, List.nil_append,
    Nat.shiftRight_zero]
  rw [(h 0 (by omega)).1, (h 0 (by omega)).2, (h 1 (by omega)).1,
    (h 1 (by omega)).2, (h 2 (by omega)).1, (h 2 (by omega)).2,
    (h 3 (by omega)).1, (h 3 (by omega)).2, (h 4 (by omega)).1,
    (h 4 (by omega)).2, (h 5 (by omega)).1, (h 5 (by omega)).2]

/-- C6, counterexample.  "Different bytes always give different paths" is
false: the suffix keeps only 48 bits of the digest, so by counting there
exist two distinct byte sequences whose destination paths coincide. -/
theorem dest_path_collision_exists :
    ¬ ∀ b1 b2 : List Nat, b1 ≠ b2 → destPath "foo" b1 ≠ destPath "foo" b2 := by
  intro hall
  have hcard :
      Fintype.card (Fin 6 → Fin 16 × Fin 16) < Fintype.card (Fin 7 → Fin 256) := by
    rw [Fintype.card_fun, Fintype.card_fun, Fintype.card_prod]
    simp only [Fintype.card_fin]
    norm_num
  obtain ⟨f1, f2, hne, heq⟩ := Fintype.exists_ne_map_eq_of_card_lt
    (fun f : Fin 7 → Fin 256 => fun i : Fin 6 =>
      ((⟨((blake2s256 ((List.ofFn f).map Fin.val)).getD i 0 >>> 4) &&& 15,
          and_fifteen_lt _⟩ : Fin 16),
       (⟨(blake2s256 ((List.ofFn f).map Fin.val)).getD i 0 &&& 15,
          and_fifteen_lt _⟩ : Fin 16))) hcard
  refine hall ((List.ofFn f1).map Fin.val) ((List.ofFn f2).map Fin.val)
    (fun hEq => hne (List.ofFn_injective
      (List.map_injective_iff.mpr Fin.val_injective hEq))) ?_
  unfold destPath
  rw [make_suffix_congr (blake2s256 ((List.ofFn f1).map Fin.val))
    (blake2s256 ((List.ofFn f2).map Fin.val))
    (by rw [blake2s256_length]; omega) (by rw [blake2s256_length]; omega)
    (fun i hi => by
      have hcomp := congrFun heq ⟨i, hi⟩
      exact ⟨congrArg (fun p => (p.1 : Nat)) hcomp,
        congrArg (fun p => (p.2 : Nat)) hcomp⟩)]

/-- Distinct indices below 16 give distinct hex table characters. -/
theorem hex_char_inj :
    ∀ i j : Fin 16, hexTable.getD i.val '0' = hexTable.getD j.val '0' → i = j := by
  decide

/-- Nat version of `hex_char_inj`. -/
theorem hex_getD_inj (x y : Nat) (hx : x < 16) (hy : y < 16)
    (h : hexTable.getD x '0' = hexTable.getD y '0') : x = y :=
  congrArg Fin.val (hex_char_inj ⟨x, hx⟩ ⟨y, hy⟩ h)

/-- A byte below 256 is recovered from its two nibbles. -/
theorem byte_eq_of_nibbles (b1 b2 : Nat) (hb1 : b1 < 256) (hb2 : b2 < 256)
    (hhi : b1 >>> 4 &&& 15 = b2 >>> 4 &&& 15)
    (hlo : b1 &&& 15 = b2 &&& 15) : b1 = b2 := by
  have e : ∀ x : Nat, x &&& 15 = x % 16 := by
    intro x
    have := Nat.and_pow_two_sub_one_eq_mod x 4
    norm_num at this
    exact this
  rw [Nat.shiftRight_eq_div_pow, Nat.shiftRight_eq_div_pow, e, e] at hhi
  rw [e, e] at hlo
  norm_num at hhi
  omega

/-- `getD` at an index inside the list is a member. -/
theorem getD_mem_of_lt (l : List Nat) (k : Nat) (h : k < l.length) :
    l.getD k 0 ∈ l := by
  rw [List.getD_eq_getElem l 0 h]
  exact List.getElem_mem h

/-- On 32-byte digests, equal suffixes force equal leading 6 bytes. -/
theorem make_suffix_inj_on_digests (d1 d2 : List Nat)
    (h1 : d1.length = 32) (h2 : d2.length = 32)
    (hb1 : ∀ b ∈ d1, b < 256) (hb2 : ∀ b ∈ d2, b < 256)
    (h : make_suffix d1 = make_suffix d2) : d1.take 6 = d2.take 6 := by
  have hdata := congrArg String.data h
  rw [make_suffix_data, make_suffix_data, take_six d1 (by omega),
    take_six d2 (by omega)] at hdata
  simp only [List.map, List.flatten, List.cons_append, List.nil_append,
    Nat.shiftRight_zero, List.cons.injEq, and_true] at hdata
  obtain ⟨e0h, e0l, e1h, e1l, e2h, e2l, e3h, e3l, e4h, e4l, e5h, e5l⟩ := hdata
  rw [take_six d1 (by omega), take_six d2 (by omega)]
  have hbyte : ∀ (k : Nat), k < 6 →
      hexTable.getD (d1.getD k 0 >>> 4 &&& 15) '0' =
        hexTable.getD (d2.getD k 0 >>> 4 &&& 15) '0' →
      hexTable.getD (d1.getD k 0 &&& 15) '0' =
        hexTable.getD (d2.getD k 0 &&& 15) '0' →
      d1.getD k 0 = d2.getD k 0 := by
    intro k hk eh el
    exact byte_eq_of_nibbles _ _
      (hb1 _ (getD_mem_of_lt d1 k (by omega)))
      (hb2 _ (getD_mem_of_lt d2 k (by omega)))
      (hex_getD_inj _ _ (and_fifteen_lt _) (and_fifteen_lt _) eh)
      (hex_getD_inj _ _ (and_fifteen_lt _) (and_fifteen_lt _) el)
  rw [hbyte 0 (by omega) e0h e0l, hbyte 1 (by omega) e1h e1l,
    hbyte 2 (by omega) e2h e2l, hbyte 3 (by omega) e3h e3l,
    hbyte 4 (by omega) e4h e4l, hbyte 5 (by omega) e5h e5l]

/-- C6, amended.  Two calls with the same base name and different
post-formatting bytes resolve to different destination paths whenever the
leading 6 bytes of their digests differ (the suffix keeps only those 48
bits, so this is the exact separation the naming scheme provides). -/
theorem dest_path_separates_digest_heads (dest : String) (b1 b2 : List Nat)
    (h : (blake2s256 b1).take 6 ≠ (blake2s256 b2).take 6) :
    destPath dest b1 ≠ destPath dest b2 := by
  intro hp
  apply h
  apply make_suffix_inj_on_digests _ _ (blake2s256_length b1)
    (blake2s256_length b2) (blake2s256_lt b1) (blake2s256_lt b2)
  unfold destPath at hp
  have hd := congrArg String.data hp
  simp only [String.data_append] at hd
  exact String.ext (List.append_cancel_left (List.append_cancel_right hd))

/-- Witness for the amended C6 at the concrete contents `[0]` and `[1]`,
whose digests differ already in the leading 6 bytes. -/
theorem dest_path_separates_digest_heads_witness :
    (blake2s256 [0]).take 6 ≠ (blake2s256 [1]).take 6 ∧
    destPath "foo" [0] ≠ destPath "foo" [1] :=
  ⟨by decide, dest_path_separates_digest_heads "foo" [0] [1] (by decide)⟩

/-- Looking up a path right after updating it yields the new content. -/
theorem lookup_updateFile (files : List (String × List Nat)) (p : String)
    (c : List Nat) : (updateFile files p c).lookup p = some c := by
  induction files with
  | nil => simp [updateFile, List.lookup]
  | cons qd rest ih =>
    obtain ⟨q, d⟩ := qd
    by_cases hq : q = p
    · subst hq
      simp [updateFile, List.lookup]
    · have hpq : (p == q) = false :=
        beq_eq_false_iff_ne.mpr (fun h => hq h.symm)
      simp [updateFile, hq, List.lookup, hpq, ih]

/-- Updating a path leaves the set of stored paths independent of the
content written. -/
theorem updateFile_keys (files : List (String × List Nat)) (p : String)
    (c d : List Nat) :
    (updateFile files p c).map Prod.fst = (updateFile files p d).map Prod.fst := by
  induction files with
  | nil => simp [updateFile]
  | cons qe rest ih =>
    obtain ⟨q, e⟩ := qe
    by_cases hq : q = p
    · subst hq
      simp [updateFile]
    · simp [updateFile, hq, ih]

/-- C9, counterexample.  With caller comment `"hi"` and token stream `"B"`
(formatting disabled), the written file starts with the wrapped header
`/* hi */\n`, not with the comment text `hi` as given: the content is not
the caller's comment followed by the text. -/
theorem comment_not_verbatim_counterexample :
    lookupFile (write_to ((Config.new "foo").add_comment (some "hi")) "B"
        "dir" (.exited true none [] "") ⟨[], []⟩).2.1
        "dir/foo-b12689dc3862.rs" =
      some (strBytes "/* hi */\n" ++ strBytes "B") ∧
    strBytes "/* hi */\n" ++ strBytes "B" ≠ strBytes "hi" ++ strBytes "B" := by
  decide

/-- C9, amended.  The header written before the content is the caller's
comment wrapped by `add_comment` as `/* {comment} */\n`; that wrapped
header — not the bare comment text — is written verbatim, followed by the
(possibly formatted) bytes. -/
theorem comment_written_as_block_header
    (cfg : Config) (c ts dir : String) (oc : FmtOutcome) (fs : FsState)
    (b : List Nat) (hdry : cfg.dry = false)
    (hfmt : (maybe_run_rustfmt_on_content cfg.rustfmt cfg.verbose
      "expander: formatting with rustfmt" ts oc).1 = .ok b)
    (hfree : destPath (dir ++ "/" ++ cfg.filename_base) b ∉ fs.lockedPaths) :
    lookupFile (write_to (cfg.add_comment (some c)) ts dir oc fs).2.1
        (destPath (dir ++ "/" ++ cfg.filename_base) b) =
      some (strBytes ("/* " ++ c ++ " */\n") ++ b) := by
  cases hm : maybe_run_rustfmt_on_content cfg.rustfmt cfg.verbose
      "expander: formatting with rustfmt" ts oc with
  | mk r l =>
    rw [hm] at hfmt
    simp only at hfmt
    subst hfmt
    simp only [write_to, Config.add_comment, hdry, Bool.false_eq_true,
      if_false, expand_to_file, hm]
    rw [if_neg hfree]
    simp only [lookupFile]
    exact lookup_updateFile _ _ _

/-- Witness for the amended C9 at a concrete call. -/
theorem comment_written_as_block_header_witness :
    ((Config.new "foo").dry = false) ∧
    ((maybe_run_rustfmt_on_content (Config.new "foo").rustfmt
        (Config.new "foo").verbose "expander: formatting with rustfmt" "B"
        (.exited true none [] "")).1 = .ok (strBytes "B")) ∧
    (destPath ("dir" ++ "/" ++ (Config.new "foo").filename_base)
        (strBytes "B") ∉ (⟨[], []⟩ : FsState).lockedPaths) ∧
    (lookupFile (write_to ((Config.new "foo").add_comment (some "hi")) "B"
        "dir" (.exited true none [] "") ⟨[], []⟩).2.1
        (destPath ("dir" ++ "/" ++ (Config.new "foo").filename_base)
          (strBytes "B")) =
      some (strBytes ("/* " ++ "hi" ++ " */\n") ++ strBytes "B")) :=
  ⟨rfl, rfl, by simp,
    comment_written_as_block_header (Config.new "foo") "hi" "B" "dir"
      (.exited true none [] "") ⟨[], []⟩ (strBytes "B") rfl rfl (by simp)⟩

/-- `expand_to_file` produces the same result token stream and touches the
same set of paths whatever the header comment is: the comment never enters
the digest or the derived path. -/
theorem expand_to_file_comment_independent (ts dest : String) (rf : RustFmt)
    (cm1 cm2 : Option String) (vb : Bool) (oc : FmtOutcome) (fs : FsState) :
    (expand_to_file ts dest rf cm1 vb oc fs).1 =
      (expand_to_file ts dest rf cm2 vb oc fs).1 ∧
    ((expand_to_file ts dest rf cm1 vb oc fs).2.1.files.map Prod.fst =
      (expand_to_file ts dest rf cm2 vb oc fs).2.1.files.map Prod.fst) := by
  cases hm : maybe_run_rustfmt_on_content rf vb
      "expander: formatting with rustfmt" ts oc with
  | mk r l =>
    cases r with
    | error e => simp [expand_to_file, hm]
    | ok b =>
      simp only [expand_to_file, hm]
      refine ⟨?_, ?_⟩ <;> split <;>
        first
          | rfl
          | exact updateFile_keys _ _ _ _

/-- C10.  Two calls that differ only in the comment argument return the
same token stream (hence reference the same destination path) and leave
files at exactly the same paths: the digest is taken over the formatted
bytes before the comment is prepended. -/
theorem path_independent_of_comment (cfg : Config) (c1 c2 : Option String)
    (ts dir : String) (oc : FmtOutcome) (fs : FsState) :
    (write_to (cfg.add_comment c1) ts dir oc fs).1 =
      (write_to (cfg.add_comment c2) ts dir oc fs).1 ∧
    ((write_to (cfg.add_comment c1) ts dir oc fs).2.1.files.map Prod.fst =
      (write_to (cfg.add_comment c2) ts dir oc fs).2.1.files.map Prod.fst) := by
  by_cases hdry : cfg.dry = true
  · constructor <;> simp [write_to, Config.add_comment, hdry]
  · have hw : ∀ c : Option String,
        write_to (cfg.add_comment c) ts dir oc fs =
          expand_to_file ts (dir ++ "/" ++ cfg.filename_base) cfg.rustfmt
            (c.map (fun s => "/* " ++ s ++ " */\n")) cfg.verbose oc fs := by
      intro c
      simp [write_to, Config.add_comment, hdry]
    rw [hw c1, hw c2]
    exact expand_to_file_comment_independent _ _ _ _ _ _ _ _

end Expander
